import Mathlib

/-!
Verification development for the protohackers servers (speed-daemon,
mob-in-the-middle, budget-chat).  The Rust sources are shallowly embedded:
machine integers become `Nat` (with explicit `% 2^32` where u32 overflow
matters), the f64 speed arithmetic is modelled by exact rationals together
with explicit `inf` / `nan` values for the IEEE results of division by zero,
and fallible operations return `Option`.
-/

namespace SpeedD

/-- One camera observation, from `struct Observation` in
`speed-daemon/src/lib.rs` (road/mile are u16, timestamp u32). -/
structure Observation where
  road : Nat
  mile : Nat
  timestamp : Nat
deriving DecidableEq, Repr

/-- A pending ticket, from `struct Ticket` (speed is 100 x mph, u16). -/
structure Ticket where
  plate : List Nat
  road : Nat
  mile1 : Nat
  timestamp1 : Nat
  mile2 : Nat
  timestamp2 : Nat
  speed : Nat
deriving DecidableEq, Repr

/-- The shared store, from `struct Database`.  The HashMaps are modelled as
association lists; only `lookup` results are observable. -/
structure Database where
  speed_limits : List (Nat × Nat)
  observations : List (List Nat × List Observation)
  tickets_issued : List (List Nat × List Nat)
  tickets_to_send : List Ticket
deriving DecidableEq, Repr

/-- `Database::default()`: all maps empty. -/
def Database.empty : Database := ⟨[], [], [], []⟩

/-- Association-list lookup, modelling `HashMap::get`. -/
def alGet {β : Type} (k : Nat) : List (Nat × β) → Option β
  | [] => none
  | (k', v) :: t => if k' = k then some v else alGet k t

/-- Association-list lookup with `List Nat` keys (plate names). -/
def plGet {β : Type} (k : List Nat) : List (List Nat × β) → Option β
  | [] => none
  | (k', v) :: t => if k' = k then some v else plGet k t

/-- Association-list insert/replace, modelling `HashMap::insert` /
`entry().or_default()` followed by mutation. -/
def alSet {β : Type} (k : Nat) (v : β) : List (Nat × β) → List (Nat × β)
  | [] => [(k, v)]
  | (k', v') :: t => if k' = k then (k, v) :: t else (k', v') :: alSet k v t

/-- `alSet` for `List Nat` keys. -/
def plSet {β : Type} (k : List Nat) (v : β) : List (List Nat × β) → List (List Nat × β)
  | [] => [(k, v)]
  | (k', v') :: t => if k' = k then (k, v) :: t else (k', v') :: plSet k v t

/-- An unnormalized nonnegative fraction: the exact value of an f64
intermediate (all the values arising here are nonnegative).  Kept
unnormalized so the kernel can evaluate it (no gcd). -/
structure Frac where
  num : Nat
  den : Nat
deriving DecidableEq, Repr

/-- An integer as a fraction. -/
def Frac.ofNat (n : Nat) : Frac := ⟨n, 1⟩

/-- Exact fraction division (denominators stay nonzero in all uses). -/
def Frac.fdiv (a b : Frac) : Frac := ⟨a.num * b.den, a.den * b.num⟩

/-- Exact fraction addition. -/
def Frac.fadd (a b : Frac) : Frac := ⟨a.num * b.den + b.num * a.den, a.den * b.den⟩

/-- Multiplication by an integer. -/
def Frac.mulNat (a : Frac) (k : Nat) : Frac := ⟨a.num * k, a.den⟩

/-- Strict comparison by cross-multiplication (valid for nonzero
denominators). -/
def Frac.ltB (a b : Frac) : Bool := decide (a.num * b.den < b.num * a.den)

/-- Floor of a nonnegative fraction. -/
def Frac.floor (a : Frac) : Nat := a.num / a.den

/-- The rational value of a fraction. -/
def Frac.val (a : Frac) : ℚ := (a.num : ℚ) / (a.den : ℚ)

/-- The result of the f64 speed computation
`o2.mile.abs_diff(o1.mile) as f64 / ((o2.timestamp - o1.timestamp) as f64 / 3600.0)`.
Finite values are modelled exactly; a zero time difference gives the IEEE
results `+inf` (nonzero dividend) or `nan` (0.0 / 0.0). -/
inductive FSpeed where
  | fin (f : Frac)
  | inf
  | nan
deriving DecidableEq

/-- The speed of an adjacent observation pair, per `Database::issue_tickets`.
`o1` precedes `o2` in the timestamp-sorted list, so the u32 subtraction
`o2.timestamp - o1.timestamp` does not underflow. -/
def speedOf (o1 o2 : Observation) : FSpeed :=
  if o2.timestamp = o1.timestamp then
    (if o2.mile = o1.mile then .nan else .inf)
  else
    .fin (Frac.fdiv (Frac.ofNat (max o1.mile o2.mile - min o1.mile o2.mile))
      (Frac.fdiv (Frac.ofNat (o2.timestamp - o1.timestamp)) (Frac.ofNat 3600)))

/-- The comparison `speed > (limit as f64) + 0.1`: `+inf` compares greater
than every finite value, `nan` compares false. -/
def exceedsLimit (s : FSpeed) (limit : Nat) : Bool :=
  match s with
  | .fin f => Frac.ltB (Frac.fadd (Frac.ofNat limit) ⟨1, 10⟩) f
  | .inf => true
  | .nan => false

/-- The ticket speed field `(speed * 100.0).round() as u16`: f64 `round` is
round-half-away-from-zero (here the value is nonnegative, so it is
`floor (x + 1/2)`), and the f64 to u16 `as` cast saturates at 65535 and
maps `nan` to 0, `+inf` to 65535. -/
def speedField (s : FSpeed) : Nat :=
  match s with
  | .fin f => min (Frac.floor (Frac.fadd (Frac.mulNat f 100) ⟨1, 2⟩)) 65535
  | .inf => 65535
  | .nan => 0

/-- The day indices a ticket's issuance consumes: `day1 = o1.timestamp/86400`
and, when distinct, `day2 = o2.timestamp/86400`. -/
def daysOf (t : Ticket) : List Nat :=
  if t.timestamp1 / 86400 = t.timestamp2 / 86400 then [t.timestamp1 / 86400]
  else [t.timestamp1 / 86400, t.timestamp2 / 86400]

/-- The body of the `for w in obs.windows(2)` loop of
`Database::issue_tickets`, acting on the pair `(o1, o2)` and the state
`(issued days of the plate, tickets_to_send)`. -/
def processPair (plate : List Nat) (road limit : Nat) (o1 o2 : Observation)
    (st : List Nat × List Ticket) : List Nat × List Ticket :=
  let s := speedOf o1 o2
  if exceedsLimit s limit then
    let day1 := o1.timestamp / 86400
    let day2 := o2.timestamp / 86400
    let issued := st.1
    if day1 ∈ issued ∨ (day1 ≠ day2 ∧ day2 ∈ issued) then st
    else
      let issued1 := if day1 ∉ issued then issued ++ [day1] else issued
      let issued2 := if day1 ≠ day2 ∧ day2 ∉ issued1 then issued1 ++ [day2] else issued1
      (issued2, st.2 ++ [⟨plate, road, o1.mile, o1.timestamp, o2.mile, o2.timestamp, speedField s⟩])
  else st

/-- The `windows(2)` loop itself: fold `processPair` over adjacent pairs. -/
def foldPairs (plate : List Nat) (road limit : Nat)
    (st : List Nat × List Ticket) : List Observation → List Nat × List Ticket
  | o1 :: o2 :: rest => foldPairs plate road limit (processPair plate road limit o1 o2 st) (o2 :: rest)
  | _ => st

/-- `Database::issue_tickets`.  `none` models the
`.expect("no speed limit for observed road")` panic.  The code only creates
the `tickets_issued` entry inside the loop, but an absent entry and an empty
one are lookup-equivalent, so the entry is written back unconditionally. -/
def issueTickets (db : Database) (plate : List Nat) (road : Nat) : Option Database :=
  match alGet road db.speed_limits with
  | none => none
  | some limit =>
    let obs := ((plGet plate db.observations).getD []).filter (fun o => o.road = road)
    let issued0 := (plGet plate db.tickets_issued).getD []
    let res := foldPairs plate road limit (issued0, db.tickets_to_send) obs
    some { db with tickets_issued := plSet plate res.1 db.tickets_issued,
                   tickets_to_send := res.2 }

/-- Timestamp-ordered insertion, building the result of
`obs.sort_unstable()` (whose `Ord` compares timestamps only). -/
def insertTS (o : Observation) : List Observation → List Observation
  | [] => [o]
  | x :: t => if o.timestamp ≤ x.timestamp then o :: x :: t else x :: insertTS o t

/-- Insertion sort by timestamp, modelling `obs.sort_unstable()` (which
orders solely by timestamp; ties keep an unspecified order, here the
arrival order). -/
def sortTS : List Observation → List Observation
  | [] => []
  | x :: t => insertTS x (sortTS t)

/-- `Database::record_observation`: push the new observation, re-sort the
plate's list, and when it now holds more than one element run the ticket
logic for the reporting road. -/
def recordObservation (db : Database) (plate : List Nat) (road mile ts : Nat) :
    Option Database :=
  let obs := (plGet plate db.observations).getD []
  let obs2 := sortTS (obs ++ [⟨road, mile, ts⟩])
  let db2 := { db with observations := plSet plate obs2 db.observations }
  if 1 < obs2.length then issueTickets db2 plate road else some db2

/-- `Database::record_speed_limit`. -/
def recordSpeedLimit (db : Database) (road limit : Nat) : Database :=
  { db with speed_limits := alSet road limit db.speed_limits }

/-- The position-plus-remove of `Database::get_ticket_to_send`:
remove and return the first ticket whose road is in `roads`. -/
def takeFirst (roads : List Nat) : List Ticket → Option Ticket × List Ticket
  | [] => (none, [])
  | t :: ts =>
    if t.road ∈ roads then (some t, ts)
    else
      let r := takeFirst roads ts
      (r.1, t :: r.2)

/-- `Database::get_ticket_to_send` lifted to the whole database. -/
def getTicketToSend (db : Database) (roads : List Nat) : Option Ticket × Database :=
  let r := takeFirst roads db.tickets_to_send
  (r.1, { db with tickets_to_send := r.2 })

/-- The Database-mutating events of the speed daemon. -/
inductive Event where
  | limit (road lim : Nat)
  | obs (plate : List Nat) (road mile ts : Nat)
deriving DecidableEq, Repr

/-- Apply one event: `record_speed_limit` or `record_observation`. -/
def applyEvent (db : Database) : Event → Option Database
  | .limit r l => some (recordSpeedLimit db r l)
  | .obs p r m t => recordObservation db p r m t

/-- Apply a sequence of events, propagating the missing-limit panic. -/
def applySeq : List Event → Database → Option Database
  | [], db => some db
  | e :: es, db =>
    match applyEvent db e with
    | some db2 => applySeq es db2
    | none => none

/-- The exact-arithmetic value of the finite-case speed expression
`|o2.mile - o1.mile| / ((o2.timestamp - o1.timestamp) / 3600)`. -/
def pairSpeed (o1 o2 : Observation) : ℚ :=
  ((max o1.mile o2.mile - min o1.mile o2.mile : Nat) : ℚ) /
    (((o2.timestamp - o1.timestamp : Nat) : ℚ) / 3600)

/-- Round to the nearest integer, halves away from zero (for nonnegative
arguments), as f64 `round` does. -/
def specRound (q : ℚ) : ℤ := ⌊q + 1/2⌋

/-- The plate's stored observation list. -/
def obsOf (db : Database) (plate : List Nat) : List Observation :=
  (plGet plate db.observations).getD []

/-- The plate's issued-day list. -/
def issuedOf (db : Database) (plate : List Nat) : List Nat :=
  (plGet plate db.tickets_issued).getD []

/-- Sortedness by timestamp. -/
def tsSorted (l : List Observation) : Prop :=
  l.Pairwise (fun a b => a.timestamp ≤ b.timestamp)

lemma plGet_plSet_self {β : Type} (k : List Nat) (v : β) :
    ∀ m : List (List Nat × β), plGet k (plSet k v m) = some v := by
  intro m
  induction m with
  | nil => simp [plGet, plSet]
  | cons p t ih =>
    obtain ⟨pk, pv⟩ := p
    by_cases h : pk = k
    · simp [plGet, plSet, h]
    · simp [plGet, plSet, h, ih]

lemma plGet_plSet_ne {β : Type} (k q : List Nat) (v : β) (hqk : q ≠ k) :
    ∀ m : List (List Nat × β), plGet q (plSet k v m) = plGet q m := by
  intro m
  have hkq : ¬ (k = q) := fun h => hqk h.symm
  induction m with
  | nil => simp [plGet, plSet, hkq]
  | cons p t ih =>
    obtain ⟨pk, pv⟩ := p
    by_cases h : pk = k
    · subst h
      simp [plGet, plSet, hkq]
    · by_cases h2 : pk = q <;> simp [plGet, plSet, h, h2, ih, hqk]

lemma mem_insertTS (a o : Observation) :
    ∀ l, a ∈ insertTS o l ↔ a = o ∨ a ∈ l := by
  intro l
  induction l with
  | nil => simp [insertTS]
  | cons x t ih =>
    by_cases h : o.timestamp ≤ x.timestamp
    · simp [insertTS, h]
    · simp [insertTS, h, ih]
      tauto

lemma tsSorted_insertTS (o : Observation) :
    ∀ l, tsSorted l → tsSorted (insertTS o l) := by
  intro l hl
  induction l with
  | nil => simp [insertTS, tsSorted]
  | cons x t ih =>
    rw [tsSorted, List.pairwise_cons] at hl
    by_cases h : o.timestamp ≤ x.timestamp
    · rw [tsSorted, insertTS, if_pos h, List.pairwise_cons]
      refine ⟨?_, ?_⟩
      · intro b hb
        rcases List.mem_cons.mp hb with hb | hb
        · exact hb ▸ h
        · exact le_trans h (hl.1 b hb)
      · rw [List.pairwise_cons]
        exact hl
    · rw [tsSorted, insertTS, if_neg h, List.pairwise_cons]
      refine ⟨?_, ih hl.2⟩
      intro b hb
      rcases (mem_insertTS b o t).mp hb with hb | hb
      · exact hb ▸ le_of_not_le h
      · exact hl.1 b hb

lemma tsSorted_sortTS : ∀ l, tsSorted (sortTS l) := by
  intro l
  induction l with
  | nil => simp [sortTS, tsSorted]
  | cons x t ih => exact tsSorted_insertTS x _ ih

lemma issueTickets_observations (db : Database) (plate : List Nat) (road : Nat)
    (db2 : Database) (h : issueTickets db plate road = some db2) :
    db2.observations = db.observations := by
  unfold issueTickets at h
  cases halt : alGet road db.speed_limits with
  | none => rw [halt] at h; cases h
  | some limit =>
    rw [halt] at h
    cases h
    rfl

lemma takeFirst_not_mem (roads : List Nat) :
    ∀ l : List Ticket, (∀ t ∈ l, t.road ∉ roads) → takeFirst roads l = (none, l) := by
  intro l h
  induction l with
  | nil => rfl
  | cons t ts ih =>
    rw [takeFirst, if_neg (h t (List.mem_cons_self t ts))]
    rw [ih (fun u hu => h u (List.mem_cons_of_mem t hu))]

lemma takeFirst_found (roads : List Nat) (t : Ticket) (post : List Ticket)
    (ht : t.road ∈ roads) :
    ∀ pre : List Ticket, (∀ u ∈ pre, u.road ∉ roads) →
      takeFirst roads (pre ++ t :: post) = (some t, pre ++ post) := by
  intro pre h
  induction pre with
  | nil => simp [takeFirst, ht]
  | cons u us ih =>
    rw [List.cons_append, takeFirst, if_neg (h u (List.mem_cons_self u us))]
    rw [ih (fun v hv => h v (List.mem_cons_of_mem u hv))]
    rfl

/-- C4: `take_ticket_for` removes and returns the first pending ticket (in
insertion order) whose road is in the dispatcher's road set, and returns
nothing (leaving the queue untouched) when no pending ticket matches; hence
repeated calls drain the matching tickets in FIFO insertion order, each
ticket being returned at most once. -/
theorem c4_take_ticket_fifo (db : Database) (roads : List Nat) :
    ((∀ t ∈ db.tickets_to_send, t.road ∉ roads) →
      getTicketToSend db roads = (none, db)) ∧
    (∀ (pre : List Ticket) (t : Ticket) (post : List Ticket),
      db.tickets_to_send = pre ++ t :: post →
      (∀ u ∈ pre, u.road ∉ roads) → t.road ∈ roads →
      getTicketToSend db roads =
        (some t, { db with tickets_to_send := pre ++ post })) := by
  constructor
  · intro h
    rw [getTicketToSend, takeFirst_not_mem roads _ h]
  · intro pre t post hsplit hpre ht
    rw [getTicketToSend, hsplit, takeFirst_found roads t post ht pre hpre]

/-- Witness for C4 on a concrete two-ticket queue. -/
theorem c4_take_ticket_fifo_witness :
    getTicketToSend ⟨[], [], [], [⟨[65], 3, 0, 0, 1, 1, 100⟩, ⟨[66], 7, 2, 2, 3, 3, 200⟩]⟩ [7] =
      (some ⟨[66], 7, 2, 2, 3, 3, 200⟩,
        ⟨[], [], [], [⟨[65], 3, 0, 0, 1, 1, 100⟩]⟩) := by
  have h := (c4_take_ticket_fifo
      ⟨[], [], [], [⟨[65], 3, 0, 0, 1, 1, 100⟩, ⟨[66], 7, 2, 2, 3, 3, 200⟩]⟩ [7]).2
      [⟨[65], 3, 0, 0, 1, 1, 100⟩] ⟨[66], 7, 2, 2, 3, 3, 200⟩ []
      rfl (by decide) (by decide)
  simpa using h

/-- C5: `record_observation` stores the recorded plate's observation list
sorted by timestamp and leaves every other plate's list unchanged, so after
any sequence of calls, in any arrival order, every stored list is sorted. -/
theorem c5_observations_sorted (db : Database) (plate : List Nat)
    (road mile ts : Nat) (db2 : Database)
    (h : recordObservation db plate road mile ts = some db2) :
    tsSorted (obsOf db2 plate) ∧
    (∀ q, q ≠ plate → plGet q db2.observations = plGet q db.observations) := by
  simp only [recordObservation] at h
  have hobs : db2.observations =
      plSet plate (sortTS ((plGet plate db.observations).getD [] ++ [⟨road, mile, ts⟩]))
        db.observations := by
    by_cases hlen :
        1 < (sortTS ((plGet plate db.observations).getD [] ++ [⟨road, mile, ts⟩])).length
    · rw [if_pos hlen] at h
      exact issueTickets_observations _ plate road db2 h
    · rw [if_neg hlen] at h
      injection h with h2
      rw [← h2]
  constructor
  · rw [obsOf, hobs, plGet_plSet_self]
    exact tsSorted_sortTS _
  · intro q hq
    rw [hobs, plGet_plSet_ne _ _ _ hq]

/-- Witness for C5 on a concrete database. -/
theorem c5_observations_sorted_witness :
    ∃ db2, recordObservation Database.empty [65] 1 3 7 = some db2 ∧
      tsSorted (obsOf db2 [65]) := by
  refine ⟨⟨[], [([65], [⟨1, 3, 7⟩])], [], []⟩, rfl, ?_⟩
  exact (c5_observations_sorted Database.empty [65] 1 3 7 _ rfl).1

lemma Frac.ofNat_val (n : Nat) : (Frac.ofNat n).val = (n : ℚ) := by
  simp [Frac.ofNat, Frac.val]

lemma Frac.ltB_iff (a b : Frac) (ha : a.den ≠ 0) (hb : b.den ≠ 0) :
    Frac.ltB a b = true ↔ a.val < b.val := by
  have ha2 : (0 : ℚ) < a.den := by exact_mod_cast Nat.pos_of_ne_zero ha
  have hb2 : (0 : ℚ) < b.den := by exact_mod_cast Nat.pos_of_ne_zero hb
  rw [Frac.ltB, decide_eq_true_eq, Frac.val, Frac.val, div_lt_div_iff ha2 hb2]
  constructor
  · intro h; exact_mod_cast h
  · intro h; exact_mod_cast h

lemma Frac.floor_val (a : Frac) : ((Frac.floor a : ℤ)) = ⌊a.val⌋ := by
  rw [Frac.floor, Frac.val, Rat.floor_natCast_div_natCast]
  exact Int.ofNat_div a.num a.den

lemma Frac.fadd_val (a b : Frac) (ha : a.den ≠ 0) (hb : b.den ≠ 0) :
    (Frac.fadd a b).val = a.val + b.val := by
  have ha2 : ((a.den : ℚ)) ≠ 0 := by exact_mod_cast ha
  have hb2 : ((b.den : ℚ)) ≠ 0 := by exact_mod_cast hb
  rw [Frac.fadd, Frac.val, Frac.val, Frac.val]
  push_cast
  field_simp

lemma Frac.mulNat_val (a : Frac) (k : Nat) : (Frac.mulNat a k).val = a.val * k := by
  rw [Frac.mulNat, Frac.val, Frac.val]
  push_cast
  ring

lemma Frac.fdiv_val (a b : Frac) (ha : a.den ≠ 0) (hb : b.den ≠ 0) (hbn : b.num ≠ 0) :
    (Frac.fdiv a b).val = a.val / b.val := by
  have ha2 : ((a.den : ℚ)) ≠ 0 := by exact_mod_cast ha
  have hb2 : ((b.den : ℚ)) ≠ 0 := by exact_mod_cast hb
  have hbn2 : ((b.num : ℚ)) ≠ 0 := by exact_mod_cast hbn
  rw [Frac.fdiv, Frac.val, Frac.val, Frac.val]
  push_cast
  field_simp

lemma speedOf_of_lt (o1 o2 : Observation) (hts : o1.timestamp < o2.timestamp) :
    speedOf o1 o2 =
      .fin (Frac.fdiv (Frac.ofNat (max o1.mile o2.mile - min o1.mile o2.mile))
        (Frac.fdiv (Frac.ofNat (o2.timestamp - o1.timestamp)) (Frac.ofNat 3600))) := by
  rw [speedOf, if_neg (by omega)]

lemma speedOf_fin_den (o1 o2 : Observation) (hts : o1.timestamp < o2.timestamp) :
    (Frac.fdiv (Frac.ofNat (max o1.mile o2.mile - min o1.mile o2.mile))
      (Frac.fdiv (Frac.ofNat (o2.timestamp - o1.timestamp)) (Frac.ofNat 3600))).den ≠ 0 := by
  simp [Frac.fdiv, Frac.ofNat]
  omega

lemma speedOf_fin_val (o1 o2 : Observation) (hts : o1.timestamp < o2.timestamp) :
    (Frac.fdiv (Frac.ofNat (max o1.mile o2.mile - min o1.mile o2.mile))
      (Frac.fdiv (Frac.ofNat (o2.timestamp - o1.timestamp)) (Frac.ofNat 3600))).val =
      pairSpeed o1 o2 := by
  rw [Frac.fdiv_val _ _ (by simp [Frac.ofNat]) (by simp [Frac.fdiv, Frac.ofNat])
    (by simp [Frac.fdiv, Frac.ofNat]; omega)]
  rw [Frac.fdiv_val _ _ (by simp [Frac.ofNat]) (by simp [Frac.ofNat]) (by simp [Frac.ofNat])]
  rw [Frac.ofNat_val, Frac.ofNat_val, Frac.ofNat_val, pairSpeed]
  norm_num

/-- C1 (amended): for adjacent same-road pairs with strictly increasing
timestamps, the pair is ticketed exactly when the exact speed exceeds
`limit + 0.1` and neither endpoint day's issuance slot is consumed, and the
ticket's speed field is `speed x 100` rounded to nearest and saturated at
65535 (the f64 to u16 `as` cast saturates). -/
theorem c1_speed_formula (plate : List Nat) (road limit : Nat) (o1 o2 : Observation)
    (st : List Nat × List Ticket) (hts : o1.timestamp < o2.timestamp) :
    (¬ ((limit : ℚ) + 1/10 < pairSpeed o1 o2) →
        processPair plate road limit o1 o2 st = st) ∧
    (((limit : ℚ) + 1/10 < pairSpeed o1 o2) →
      ((o1.timestamp / 86400 ∈ st.1 ∨
          (o1.timestamp / 86400 ≠ o2.timestamp / 86400 ∧ o2.timestamp / 86400 ∈ st.1)) →
        processPair plate road limit o1 o2 st = st) ∧
      (¬ (o1.timestamp / 86400 ∈ st.1 ∨
          (o1.timestamp / 86400 ≠ o2.timestamp / 86400 ∧ o2.timestamp / 86400 ∈ st.1)) →
        (processPair plate road limit o1 o2 st).2 =
          st.2 ++ [⟨plate, road, o1.mile, o1.timestamp, o2.mile, o2.timestamp,
            min (specRound (pairSpeed o1 o2 * 100)).toNat 65535⟩])) := by
  have hsp := speedOf_of_lt o1 o2 hts
  have hden := speedOf_fin_den o1 o2 hts
  have hval := speedOf_fin_val o1 o2 hts
  have hex : exceedsLimit (speedOf o1 o2) limit = true ↔
      ((limit : ℚ) + 1/10 < pairSpeed o1 o2) := by
    rw [hsp]
    show Frac.ltB (Frac.fadd (Frac.ofNat limit) ⟨1, 10⟩) _ = true ↔ _
    rw [Frac.ltB_iff _ _ (by simp [Frac.fadd, Frac.ofNat]) hden,
      Frac.fadd_val _ _ (by simp [Frac.ofNat]) (by norm_num), Frac.ofNat_val, hval]
    norm_num [Frac.val]
  have hsf : speedField (speedOf o1 o2) =
      min (specRound (pairSpeed o1 o2 * 100)).toNat 65535 := by
    rw [hsp, speedField]
    congr 1
    have h2 : (Frac.fadd (Frac.mulNat
        (Frac.fdiv (Frac.ofNat (max o1.mile o2.mile - min o1.mile o2.mile))
          (Frac.fdiv (Frac.ofNat (o2.timestamp - o1.timestamp)) (Frac.ofNat 3600))) 100)
          ⟨1, 2⟩).val = pairSpeed o1 o2 * 100 + 1/2 := by
      rw [Frac.fadd_val _ _ (by simpa [Frac.mulNat] using hden) (by norm_num),
        Frac.mulNat_val, hval]
      norm_num [Frac.val]
    calc Frac.floor _ = ((Frac.floor _ : ℤ)).toNat := (Int.toNat_natCast _).symm
      _ = (⌊(Frac.fadd (Frac.mulNat
            (Frac.fdiv (Frac.ofNat (max o1.mile o2.mile - min o1.mile o2.mile))
              (Frac.fdiv (Frac.ofNat (o2.timestamp - o1.timestamp)) (Frac.ofNat 3600))) 100)
            ⟨1, 2⟩).val⌋).toNat := by rw [Frac.floor_val]
      _ = (specRound (pairSpeed o1 o2 * 100)).toNat := by rw [h2, specRound]
  refine ⟨?_, fun hgt => ⟨?_, ?_⟩⟩
  · intro hng
    have he : exceedsLimit (speedOf o1 o2) limit = false := by
      rcases Bool.eq_false_or_eq_true (exceedsLimit (speedOf o1 o2) limit) with h | h
      · exact absurd (hex.mp h) hng
      · exact h
    simp [processPair, he]
  · intro hblk
    have he := hex.mpr hgt
    simp [processPair, he, hblk]
  · intro hnb
    have he := hex.mpr hgt
    simp [processPair, he, hnb, hsf]

/-- Counterexample to C1 as stated: with limit 0 and observations one mile
marker 1000 apart one second apart, the exact `speed x 100` rounds to
360000000, but the issued ticket's speed field is the saturated 65535. -/
theorem c1_counterexample :
    (applySeq [.limit 1 0, .obs [65] 1 0 0, .obs [65] 1 1000 1] Database.empty).map
        (fun db => db.tickets_to_send.map Ticket.speed) = some [65535] ∧
    specRound (pairSpeed ⟨1, 0, 0⟩ ⟨1, 1000, 1⟩ * 100) = 360000000 ∧
    (65535 : ℤ) ≠ 360000000 := by
  refine ⟨by decide, ?_, by decide⟩
  rw [specRound, Int.floor_eq_iff]
  constructor
  · norm_num [pairSpeed]
  · norm_num [pairSpeed]

/-- Witness for C1 (amended) on a concrete speeding pair. -/
theorem c1_speed_formula_witness :
    (processPair [65] 1 0 ⟨1, 0, 0⟩ ⟨1, 500, 10⟩ ([], [])).2 =
      [] ++ [⟨[65], 1, 0, 0, 500, 10,
        min (specRound (pairSpeed ⟨1, 0, 0⟩ ⟨1, 500, 10⟩ * 100)).toNat 65535⟩] :=
  ((c1_speed_formula [65] 1 0 ⟨1, 0, 0⟩ ⟨1, 500, 10⟩ ([], []) (by decide)).2
    (by norm_num [pairSpeed])).2 (by decide)

/-- C2 (amended): for an adjacent same-road pair with identical timestamps,
identical mile markers give a NaN speed and no ticket; distinct mile markers
give an infinite f64 speed, which exceeds every limit, so a ticket with the
saturated speed field 65535 is issued whenever the (single) day slot is
free. -/
theorem c2_equal_timestamps (plate : List Nat) (road limit : Nat) (o1 o2 : Observation)
    (st : List Nat × List Ticket) (hts : o1.timestamp = o2.timestamp) :
    (o1.mile = o2.mile → processPair plate road limit o1 o2 st = st) ∧
    (o1.mile ≠ o2.mile →
      (o1.timestamp / 86400 ∈ st.1 → processPair plate road limit o1 o2 st = st) ∧
      (o1.timestamp / 86400 ∉ st.1 →
        (processPair plate road limit o1 o2 st).2 =
          st.2 ++ [⟨plate, road, o1.mile, o1.timestamp, o2.mile, o2.timestamp, 65535⟩])) := by
  refine ⟨?_, fun hm => ⟨?_, ?_⟩⟩
  · intro hmeq
    have hsp : speedOf o1 o2 = .nan := by
      rw [speedOf, if_pos hts.symm, if_pos hmeq.symm]
    simp [processPair, hsp, exceedsLimit]
  · intro hin
    have hsp : speedOf o1 o2 = .inf := by
      rw [speedOf, if_pos hts.symm, if_neg (fun h => hm h.symm)]
    rw [hts] at hin
    simp [processPair, hsp, exceedsLimit, hts, hin]
  · intro hout
    have hsp : speedOf o1 o2 = .inf := by
      rw [speedOf, if_pos hts.symm, if_neg (fun h => hm h.symm)]
    rw [hts] at hout
    simp [processPair, hsp, exceedsLimit, hts, hout, speedField]

/-- Counterexample to C2 as stated: two observations of the same plate on
the same road with identical timestamps but different mile markers do
produce a ticket (f64 division by zero yields +inf, which exceeds the
limit), rather than no ticket. -/
theorem c2_counterexample :
    (applySeq [.limit 1 100, .obs [65] 1 0 5, .obs [65] 1 9 5] Database.empty).map
      (fun db => db.tickets_to_send.length) = some 1 := by
  decide

/-- Witness for C2 (amended) on a concrete equal-timestamp pair. -/
theorem c2_equal_timestamps_witness :
    (processPair [65] 1 100 ⟨1, 0, 5⟩ ⟨1, 9, 5⟩ ([], [])).2 =
      [] ++ [⟨[65], 1, 0, 5, 9, 5, 65535⟩] :=
  ((c2_equal_timestamps [65] 1 100 ⟨1, 0, 5⟩ ⟨1, 9, 5⟩ ([], []) rfl).2
    (by decide)).2 (by decide)

/-- Two tickets of the same plate consume disjoint day slots. -/
def SPDisjoint (t u : Ticket) : Prop :=
  t.plate = u.plate → ∀ d ∈ daysOf t, d ∉ daysOf u

/-- The ticketing invariant: per-plate issued-day lists have no duplicates,
every pending ticket's days are recorded in its plate's issued list, and
pending tickets of the same plate cover disjoint day sets. -/
def Inv (db : Database) : Prop :=
  (∀ p, (issuedOf db p).Nodup) ∧
  (∀ t ∈ db.tickets_to_send, ∀ d ∈ daysOf t, d ∈ issuedOf db t.plate) ∧
  db.tickets_to_send.Pairwise SPDisjoint

/-- The loop-state invariant threaded through `foldPairs` for a fixed plate;
`other` is the ambient issued-day list of every other plate. -/
def InvF (plate : List Nat) (other : List Nat → List Nat)
    (st : List Nat × List Ticket) : Prop :=
  st.1.Nodup ∧
  (∀ t ∈ st.2, t.plate = plate → ∀ d ∈ daysOf t, d ∈ st.1) ∧
  (∀ t ∈ st.2, t.plate ≠ plate → ∀ d ∈ daysOf t, d ∈ other t.plate) ∧
  st.2.Pairwise SPDisjoint

lemma processPair_cases (plate : List Nat) (road limit : Nat) (o1 o2 : Observation)
    (st : List Nat × List Ticket) :
    processPair plate road limit o1 o2 st = st ∨
    ∃ t : Ticket, t.plate = plate ∧ (daysOf t).Nodup ∧ (∀ d ∈ daysOf t, d ∉ st.1) ∧
      processPair plate road limit o1 o2 st = (st.1 ++ daysOf t, st.2 ++ [t]) := by
  by_cases he : exceedsLimit (speedOf o1 o2) limit = true
  · by_cases hblk : (o1.timestamp / 86400 ∈ st.1 ∨
        (o1.timestamp / 86400 ≠ o2.timestamp / 86400 ∧ o2.timestamp / 86400 ∈ st.1))
    · left
      simp [processPair, he, hblk]
    · right
      push_neg at hblk
      obtain ⟨h1, h2⟩ := hblk
      refine ⟨⟨plate, road, o1.mile, o1.timestamp, o2.mile, o2.timestamp,
        speedField (speedOf o1 o2)⟩, rfl, ?_, ?_, ?_⟩
      · by_cases hd : o1.timestamp / 86400 = o2.timestamp / 86400 <;> simp [daysOf, hd]
      · intro d hd
        by_cases hdd : o1.timestamp / 86400 = o2.timestamp / 86400
        · simp only [daysOf, if_pos hdd, List.mem_singleton] at hd
          exact hd ▸ h1
        · simp only [daysOf, if_neg hdd, List.mem_cons, List.mem_singleton,
            List.not_mem_nil, or_false] at hd
          rcases hd with rfl | rfl
          · exact h1
          · exact h2 hdd
      · have hblk2 : ¬ (o1.timestamp / 86400 ∈ st.1 ∨
            (o1.timestamp / 86400 ≠ o2.timestamp / 86400 ∧
              o2.timestamp / 86400 ∈ st.1)) := by
          rintro (hx | ⟨hne, hx⟩)
          · exact h1 hx
          · exact h2 hne hx
        simp only [processPair]
        rw [if_pos he, if_neg hblk2, if_pos h1]
        by_cases hdd : o1.timestamp / 86400 = o2.timestamp / 86400
        · have hc : ¬ (o1.timestamp / 86400 ≠ o2.timestamp / 86400 ∧
              o2.timestamp / 86400 ∉ (st.1 ++ [o1.timestamp / 86400])) :=
            fun hx => hx.1 hdd
          rw [if_neg hc]
          simp [daysOf, hdd]
        · have h2d := h2 hdd
          have hc : o1.timestamp / 86400 ≠ o2.timestamp / 86400 ∧
              o2.timestamp / 86400 ∉ (st.1 ++ [o1.timestamp / 86400]) := by
            refine ⟨hdd, ?_⟩
            simp only [List.mem_append, List.mem_singleton]
            rintro (hx | hx)
            · exact h2d hx
            · exact hdd (hx.symm)
          rw [if_pos hc]
          simp [daysOf, hdd]
  · left
    simp [processPair, Bool.eq_false_iff.mpr he]

lemma processPair_InvF (plate : List Nat) (other : List Nat → List Nat)
    (road limit : Nat) (o1 o2 : Observation) (st : List Nat × List Ticket)
    (h : InvF plate other st) :
    InvF plate other (processPair plate road limit o1 o2 st) := by
  rcases processPair_cases plate road limit o1 o2 st with heq | ⟨t, hpl, hnd, hfresh, heq⟩
  · rw [heq]
    exact h
  · rw [heq]
    obtain ⟨h1, h2, h3, h4⟩ := h
    refine ⟨?_, ?_, ?_, ?_⟩
    · exact h1.append hnd (fun a ha hb => hfresh a hb ha)
    · intro u hu hupl d hd
      rcases List.mem_append.mp hu with hu | hu
      · exact List.mem_append_left _ (h2 u hu hupl d hd)
      · rw [List.mem_singleton.mp hu] at hd
        exact List.mem_append_right _ hd
    · intro u hu hupl d hd
      rcases List.mem_append.mp hu with hu | hu
      · exact h3 u hu hupl d hd
      · rw [List.mem_singleton.mp hu] at hupl
        exact absurd hpl hupl
    · rw [List.pairwise_append]
      refine ⟨h4, List.pairwise_singleton _ _, ?_⟩
      intro u hu v hv
      rw [List.mem_singleton.mp hv]
      intro hpe d hd hd2
      exact hfresh d hd2 (h2 u hu (hpe.trans hpl) d hd)

lemma foldPairs_InvF (plate : List Nat) (other : List Nat → List Nat)
    (road limit : Nat) :
    ∀ (obs : List Observation) (st : List Nat × List Ticket),
      InvF plate other st → InvF plate other (foldPairs plate road limit st obs) := by
  intro obs
  induction obs with
  | nil => intro st h; simpa [foldPairs] using h
  | cons o1 rest ih =>
    intro st h
    cases rest with
    | nil => simpa [foldPairs] using h
    | cons o2 rest2 =>
      have step := processPair_InvF plate other road limit o1 o2 st h
      simpa [foldPairs] using ih _ step

lemma issuedOf_update (db : Database) (plate : List Nat) (v : List Nat)
    (ts : List Ticket) (p : List Nat) :
    issuedOf { db with tickets_issued := plSet plate v db.tickets_issued,
                       tickets_to_send := ts } p =
      if p = plate then v else issuedOf db p := by
  by_cases hp : p = plate
  · subst hp
    simp [issuedOf, plGet_plSet_self]
  · simp [issuedOf, plGet_plSet_ne _ _ _ hp, hp]

lemma issueTickets_Inv (db : Database) (plate : List Nat) (road : Nat)
    (db2 : Database) (h : issueTickets db plate road = some db2) (hI : Inv db) :
    Inv db2 := by
  rw [issueTickets] at h
  cases hl : alGet road db.speed_limits with
  | none => rw [hl] at h; cases h
  | some limit =>
    rw [hl] at h
    injection h with h
    obtain ⟨hI1, hI2, hI3⟩ := hI
    have hF := foldPairs_InvF plate (fun p => issuedOf db p) road limit
      (((plGet plate db.observations).getD []).filter (fun o => o.road = road))
      (issuedOf db plate, db.tickets_to_send)
      ⟨hI1 plate,
       fun t ht hpl d hd => by have := hI2 t ht d hd; rwa [hpl] at this,
       fun t ht _ d hd => hI2 t ht d hd,
       hI3⟩
    obtain ⟨hF1, hF2, hF3, hF4⟩ := hF
    subst h
    refine ⟨?_, ?_, hF4⟩
    · intro p
      rw [show (plGet plate db.tickets_issued).getD [] = issuedOf db plate from rfl,
        issuedOf_update]
      by_cases hp : p = plate
      · rw [if_pos hp]
        exact hF1
      · rw [if_neg hp]
        exact hI1 p
    · intro t ht d hd
      rw [show (plGet plate db.tickets_issued).getD [] = issuedOf db plate from rfl,
        issuedOf_update]
      by_cases hp : t.plate = plate
      · rw [if_pos hp]
        exact hF2 t ht hp d hd
      · rw [if_neg hp]
        exact hF3 t ht hp d hd

lemma recordObservation_Inv (db : Database) (plate : List Nat) (road mile ts : Nat)
    (db2 : Database) (h : recordObservation db plate road mile ts = some db2)
    (hI : Inv db) : Inv db2 := by
  simp only [recordObservation] at h
  by_cases hlen :
      1 < (sortTS ((plGet plate db.observations).getD [] ++ [⟨road, mile, ts⟩])).length
  · rw [if_pos hlen] at h
    exact issueTickets_Inv _ plate road db2 h hI
  · rw [if_neg hlen] at h
    injection h with h
    subst h
    exact hI

lemma applySeq_Inv : ∀ (seq : List Event) (db db2 : Database),
    Inv db → applySeq seq db = some db2 → Inv db2 := by
  intro seq
  induction seq with
  | nil =>
    intro db db2 hI h
    injection h with h
    subst h
    exact hI
  | cons e es ih =>
    intro db db2 hI h
    rw [applySeq] at h
    cases he : applyEvent db e with
    | none => rw [he] at h; cases h
    | some dbm =>
      rw [he] at h
      refine ih dbm db2 ?_ h
      cases e with
      | limit r l =>
        injection he with he
        subst he
        exact hI
      | obs p r m t =>
        exact recordObservation_Inv db p r m t dbm he hI

/-- C3: after any sequence of recorded observations, each plate's issued-day
list has no duplicate day index, every issued ticket's (one or two) endpoint
days are recorded in its plate's issued-day list (a two-day ticket consumes
both slots), and no day index is covered by two issued tickets of the same
plate. -/
theorem c3_one_ticket_per_day (seq : List Event) (db2 : Database)
    (h : applySeq seq Database.empty = some db2) :
    (∀ p, (issuedOf db2 p).Nodup) ∧
    (∀ t ∈ db2.tickets_to_send, ∀ d ∈ daysOf t, d ∈ issuedOf db2 t.plate) ∧
    db2.tickets_to_send.Pairwise SPDisjoint :=
  applySeq_Inv seq Database.empty db2
    ⟨fun _ => List.nodup_nil, fun t ht => absurd ht (List.not_mem_nil t),
     List.Pairwise.nil⟩ h

/-- Witness for C3 on a concrete event sequence that issues a ticket. -/
theorem c3_one_ticket_per_day_witness :
    ∃ db2, applySeq [.limit 1 10, .obs [65] 1 0 0, .obs [65] 1 500 10]
        Database.empty = some db2 ∧
      (∀ p, (issuedOf db2 p).Nodup) ∧
      (∀ t ∈ db2.tickets_to_send, ∀ d ∈ daysOf t, d ∈ issuedOf db2 t.plate) ∧
      db2.tickets_to_send.Pairwise SPDisjoint := by
  cases hE : applySeq [.limit 1 10, .obs [65] 1 0 0, .obs [65] 1 500 10]
      Database.empty with
  | none => exact absurd hE (by decide)
  | some db2 => exact ⟨db2, rfl, c3_one_ticket_per_day _ db2 hE⟩

/-- The connection's role, from `enum ClientType`. -/
inductive ClientType where
  | unknown
  | camera (road mile limit : Nat)
  | dispatcher (roads : List Nat)
deriving DecidableEq, Repr

/-- The per-connection mutable state of `handle`: the role, the
`requested_heartbeat` flag, and the current heartbeat timer period in
milliseconds.  At connection start the timer is a placeholder armed with a
365-day period. -/
structure ConnState where
  clientType : ClientType
  requestedHeartbeat : Bool
  heartbeatPeriodMs : Nat
deriving DecidableEq, Repr

/-- The state `handle` starts with. -/
def initialConnState : ConnState := ⟨.unknown, false, 86400 * 365 * 1000⟩

/-- Parsed client messages, from `enum IncomingPacket`. -/
inductive IncomingPacket where
  | wantHeartbeat (interval : Nat)
  | iAmCamera (road mile limit : Nat)
  | iAmDispatcher (roads : List Nat)
  | plateReport (plate : List Nat) (timestamp : Nat)
deriving DecidableEq, Repr

/-- Outcome of handling one parsed packet in `handle`'s inner loop:
continue with updated connection state and database, or send the given
Error message and close (the database is returned untouched), or panic
(missing speed limit in `record_observation`). -/
inductive StepResult where
  | cont (st : ConnState) (db : Database)
  | errClose (db : Database) (msg : String)
  | panic (db : Database)
deriving DecidableEq, Repr

/-- The `match packet` body of `handle`.  `WantHeartbeat` with a nonzero
interval re-arms the timer at `interval * 100` ms, where the multiplication
is done on u32 and wraps modulo `2^32` (release builds; debug builds panic
on the overflow); interval 0 leaves the placeholder timer untouched. -/
def handleStep (st : ConnState) (db : Database) : IncomingPacket → StepResult
  | .wantHeartbeat interval =>
    if st.requestedHeartbeat then .errClose db "already requested heartbeat"
    else if interval ≠ 0 then
      .cont { st with requestedHeartbeat := true,
                      heartbeatPeriodMs := (interval * 100) % 2 ^ 32 } db
    else .cont { st with requestedHeartbeat := true } db
  | .iAmCamera road mile limit =>
    if st.clientType ≠ .unknown then .errClose db "already sent client type"
    else .cont { st with clientType := .camera road mile limit }
      (recordSpeedLimit db road limit)
  | .iAmDispatcher roads =>
    if st.clientType ≠ .unknown then .errClose db "already sent client type"
    else .cont { st with clientType := .dispatcher roads } db
  | .plateReport plate ts =>
    match st.clientType with
    | .camera road mile _ =>
      match recordObservation db plate road mile ts with
      | some db2 => .cont st db2
      | none => .panic db
    | _ => .errClose db "wrong client type"

/-- The heartbeat select arm: a timer tick emits a Heartbeat message iff
`requested_heartbeat` is set. -/
def heartbeatTickSends (st : ConnState) : Bool := st.requestedHeartbeat

/-- C6: a second role declaration (IAmCamera or IAmDispatcher) on a
connection whose role is already set is answered with the protocol error
and closes the connection, with the database returned untouched; and any
packet that lets the connection continue either leaves the role unchanged
or sets it from Unknown, so the role is set at most once. -/
theorem c6_role_set_once (st : ConnState) (db : Database) (pkt : IncomingPacket) :
    (st.clientType ≠ .unknown →
      ((∃ r m l, pkt = .iAmCamera r m l) ∨ (∃ rs, pkt = .iAmDispatcher rs)) →
      handleStep st db pkt = .errClose db "already sent client type") ∧
    (∀ st2 db2, handleStep st db pkt = .cont st2 db2 →
      st2.clientType = st.clientType ∨ st.clientType = .unknown) := by
  constructor
  · rintro hne (⟨r, m, l, rfl⟩ | ⟨rs, rfl⟩)
    · simp [handleStep, hne]
    · simp [handleStep, hne]
  · intro st2 db2 h
    cases pkt with
    | wantHeartbeat k =>
      simp only [handleStep] at h
      by_cases hr : st.requestedHeartbeat
      · rw [if_pos hr] at h
        cases h
      · rw [if_neg hr] at h
        by_cases hk : k ≠ 0
        · rw [if_pos hk] at h
          cases h
          exact Or.inl rfl
        · rw [if_neg hk] at h
          cases h
          exact Or.inl rfl
    | iAmCamera r m l =>
      simp only [handleStep] at h
      by_cases hc : st.clientType ≠ .unknown
      · rw [if_pos hc] at h
        cases h
      · rw [if_neg hc] at h
        cases h
        exact Or.inr (not_not.mp hc)
    | iAmDispatcher rs =>
      simp only [handleStep] at h
      by_cases hc : st.clientType ≠ .unknown
      · rw [if_pos hc] at h
        cases h
      · rw [if_neg hc] at h
        cases h
        exact Or.inr (not_not.mp hc)
    | plateReport plate ts =>
      simp only [handleStep] at h
      cases hc : st.clientType with
      | unknown => rw [hc] at h; cases h
      | camera r m l =>
        rw [hc] at h
        have h2 : (match recordObservation db plate r m ts with
            | some dbx => StepResult.cont st dbx
            | none => StepResult.panic db) = StepResult.cont st2 db2 := h
        cases hro : recordObservation db plate r m ts with
        | some dbx =>
          rw [hro] at h2
          cases h2
          exact Or.inl hc
        | none => rw [hro] at h2; cases h2
      | dispatcher rs => rw [hc] at h; cases h

/-- Witness for C6: a camera connection sending IAmDispatcher. -/
theorem c6_role_set_once_witness :
    handleStep ⟨.camera 1 2 10, false, 86400 * 365 * 1000⟩ Database.empty
        (.iAmDispatcher [1]) =
      .errClose Database.empty "already sent client type" :=
  (c6_role_set_once ⟨.camera 1 2 10, false, 86400 * 365 * 1000⟩ Database.empty
    (.iAmDispatcher [1])).1 (by decide) (Or.inr ⟨[1], rfl⟩)

/-- C7 (amended): a first WantHeartbeat with interval 0 only sets
`requested_heartbeat` (no new timer is armed; the placeholder period is
kept, so the earliest heartbeat is the placeholder's 365-day tick); a first
WantHeartbeat with interval k > 0 arms the timer at `(k * 100) mod 2^32`
milliseconds, which equals `k * 100` ms exactly when `k * 100 < 2^32`; a
timer tick emits a heartbeat iff the flag is set. -/
theorem c7_heartbeat_interval (st : ConnState) (db : Database) (k : Nat)
    (h : st.requestedHeartbeat = false) :
    (handleStep st db (.wantHeartbeat 0) =
      .cont { st with requestedHeartbeat := true } db) ∧
    (k ≠ 0 →
      handleStep st db (.wantHeartbeat k) =
        .cont { st with requestedHeartbeat := true,
                        heartbeatPeriodMs := (k * 100) % 2 ^ 32 } db) ∧
    heartbeatTickSends { st with requestedHeartbeat := true } = true ∧
    (k * 100 < 2 ^ 32 → (k * 100) % 2 ^ 32 = k * 100) := by
  refine ⟨?_, ?_, rfl, fun hk => Nat.mod_eq_of_lt hk⟩
  · simp [handleStep, h]
  · intro hk
    simp [handleStep, h, hk]

/-- Counterexample to C7 as stated: interval 42949673 arms the timer at
4 ms, not 4294967300 ms, because the u32 multiplication wraps. -/
theorem c7_counterexample :
    handleStep initialConnState Database.empty (.wantHeartbeat 42949673) =
      .cont ⟨.unknown, true, 4⟩ Database.empty ∧ (4 : Nat) ≠ 42949673 * 100 :=
  ⟨by decide, by decide⟩

/-- Witness for C7 (amended) at interval 5. -/
theorem c7_heartbeat_interval_witness :
    handleStep initialConnState Database.empty (.wantHeartbeat 5) =
      .cont { initialConnState with requestedHeartbeat := true,
                                    heartbeatPeriodMs := (5 * 100) % 2 ^ 32 }
        Database.empty :=
  ((c7_heartbeat_interval initialConnState Database.empty 5 rfl).2).1 (by decide)

/-- Result of a streaming nom parser over a byte buffer: success with the
leftover bytes, `Err::Incomplete` (need more bytes), or a hard parse
error. -/
inductive PResult (α : Type) where
  | ok (rest : List Nat) (val : α)
  | incomplete
  | err
deriving DecidableEq, Repr

/-- Sequencing of streaming parsers (nom's `tuple`): `incomplete` and
`err` short-circuit. -/
def pbind {α β : Type} (r : PResult α) (f : List Nat → α → PResult β) : PResult β :=
  match r with
  | .ok rest v => f rest v
  | .incomplete => .incomplete
  | .err => .err

/-- `be_u8` (streaming): one byte, else Incomplete. -/
def beU8 : List Nat → PResult Nat
  | [] => .incomplete
  | b :: r => .ok r b

/-- `be_u16` (streaming). -/
def beU16 : List Nat → PResult Nat
  | a :: b :: r => .ok r (a * 256 + b)
  | _ => .incomplete

/-- `be_u32` (streaming). -/
def beU32 : List Nat → PResult Nat
  | a :: b :: c :: d :: r => .ok r (((a * 256 + b) * 256 + c) * 256 + d)
  | _ => .incomplete

/-- `tag` (streaming) for a single byte: Incomplete on an empty buffer,
Error on a mismatch. -/
def tagByte (t : Nat) : List Nat → PResult Unit
  | [] => .incomplete
  | b :: r => if b = t then .ok r () else .err

/-- The counted repetition of `length_count`. -/
def countP {α : Type} (p : List Nat → PResult α) : Nat → List Nat → PResult (List α)
  | 0, input => .ok input []
  | n + 1, input =>
    match p input with
    | .ok r v =>
      match countP p n r with
      | .ok r2 vs => .ok r2 (v :: vs)
      | .incomplete => .incomplete
      | .err => .err
    | .incomplete => .incomplete
    | .err => .err

/-- `parse_str`: `length_count(be_u8, be_u8)`. -/
def parse_str (input : List Nat) : PResult (List Nat) :=
  pbind (beU8 input) (fun r n => countP beU8 n r)

/-- `parse_plate`: tag 0x20, then str, then be_u32. -/
def parse_plate (input : List Nat) : PResult IncomingPacket :=
  pbind (tagByte 32 input) (fun r1 _ =>
    pbind (parse_str r1) (fun r2 plate =>
      pbind (beU32 r2) (fun r3 ts => .ok r3 (.plateReport plate ts))))

/-- `parse_wantheartbeat`: tag 0x40, then be_u32. -/
def parse_wantheartbeat (input : List Nat) : PResult IncomingPacket :=
  pbind (tagByte 64 input) (fun r1 _ =>
    pbind (beU32 r1) (fun r2 k => .ok r2 (.wantHeartbeat k)))

/-- `parse_iamcamera`: tag 0x80, then three be_u16. -/
def parse_iamcamera (input : List Nat) : PResult IncomingPacket :=
  pbind (tagByte 128 input) (fun r1 _ =>
    pbind (beU16 r1) (fun r2 road =>
      pbind (beU16 r2) (fun r3 mile =>
        pbind (beU16 r3) (fun r4 limit => .ok r4 (.iAmCamera road mile limit)))))

/-- `parse_iamdispatcher`: tag 0x81, then `length_count(be_u8, be_u16)`. -/
def parse_iamdispatcher (input : List Nat) : PResult IncomingPacket :=
  pbind (tagByte 129 input) (fun r1 _ =>
    pbind (beU8 r1) (fun r2 n =>
      pbind (countP beU16 n r2) (fun r3 roads => .ok r3 (.iAmDispatcher roads))))

/-- `parse_incoming`: nom's `alt` tries the four parsers in order,
recovering only from `Err::Error`; Incomplete is propagated immediately. -/
def parse_incoming (input : List Nat) : PResult IncomingPacket :=
  match parse_plate input with
  | .err =>
    match parse_wantheartbeat input with
    | .err =>
      match parse_iamcamera input with
      | .err => parse_iamdispatcher input
      | r => r
    | r => r
  | r => r

lemma pbind_ok {α β : Type} (r : PResult α) (f : List Nat → α → PResult β)
    (rest : List Nat) (v : β) (h : pbind r f = .ok rest v) :
    ∃ r1 v1, r = .ok r1 v1 ∧ f r1 v1 = .ok rest v := by
  cases r with
  | ok r1 v1 => exact ⟨r1, v1, rfl, h⟩
  | incomplete => simp [pbind] at h
  | err => simp [pbind] at h

lemma beU8_lt (inp rest : List Nat) (v : Nat) (h : beU8 inp = .ok rest v) :
    rest.length < inp.length := by
  cases inp with
  | nil => simp [beU8] at h
  | cons b r =>
    rw [beU8] at h
    cases h
    simp

lemma beU16_lt (inp rest : List Nat) (v : Nat) (h : beU16 inp = .ok rest v) :
    rest.length < inp.length := by
  unfold beU16 at h
  split at h
  · cases h
    simp only [List.length_cons]
    omega
  · cases h

lemma beU32_lt (inp rest : List Nat) (v : Nat) (h : beU32 inp = .ok rest v) :
    rest.length < inp.length := by
  unfold beU32 at h
  split at h
  · cases h
    simp only [List.length_cons]
    omega
  · cases h

lemma tagByte_lt (t : Nat) (inp rest : List Nat) (v : Unit)
    (h : tagByte t inp = .ok rest v) : rest.length < inp.length := by
  cases inp with
  | nil => simp [tagByte] at h
  | cons b r =>
    rw [tagByte] at h
    by_cases hb : b = t
    · rw [if_pos hb] at h
      cases h
      simp
    · rw [if_neg hb] at h
      cases h

lemma countP_le {α : Type} (p : List Nat → PResult α)
    (hp : ∀ inp rest v, p inp = .ok rest v → rest.length ≤ inp.length) :
    ∀ (n : Nat) (inp rest : List Nat) (vs : List α),
      countP p n inp = .ok rest vs → rest.length ≤ inp.length := by
  intro n
  induction n with
  | zero =>
    intro inp rest vs h
    rw [countP] at h
    cases h
    exact le_refl _
  | succ m ih =>
    intro inp rest vs h
    rw [countP] at h
    cases hp1 : p inp with
    | ok r1 v1 =>
      rw [hp1] at h
      have h2 : (match countP p m r1 with
          | PResult.ok r2 vs2 => PResult.ok r2 (v1 :: vs2)
          | PResult.incomplete => PResult.incomplete
          | PResult.err => PResult.err) = PResult.ok rest vs := h
      cases hc : countP p m r1 with
      | ok r2 vs2 =>
        rw [hc] at h2
        cases h2
        exact le_trans (ih r1 _ vs2 hc) (hp inp r1 v1 hp1)
      | incomplete => rw [hc] at h2; cases h2
      | err => rw [hc] at h2; cases h2
    | incomplete => rw [hp1] at h; cases h
    | err => rw [hp1] at h; cases h

lemma parse_str_lt (inp rest sv : List Nat) (h : parse_str inp = .ok rest sv) :
    rest.length < inp.length := by
  obtain ⟨r1, n, hb, hc⟩ := pbind_ok _ _ _ _ h
  exact lt_of_le_of_lt
    (countP_le beU8 (fun i r v hx => le_of_lt (beU8_lt i r v hx)) n r1 rest sv hc)
    (beU8_lt inp r1 n hb)

lemma parse_plate_lt (inp rest : List Nat) (pkt : IncomingPacket)
    (h : parse_plate inp = .ok rest pkt) : rest.length < inp.length := by
  obtain ⟨r1, u, ht, h2⟩ := pbind_ok _ _ _ _ h
  obtain ⟨r2, plate, hs, h3⟩ := pbind_ok _ _ _ _ h2
  obtain ⟨r3, ts, hu, h4⟩ := pbind_ok _ _ _ _ h3
  cases h4
  exact lt_trans (lt_trans (beU32_lt r2 rest ts hu) (parse_str_lt r1 r2 plate hs))
    (tagByte_lt 32 inp r1 u ht)

lemma parse_wantheartbeat_lt (inp rest : List Nat) (pkt : IncomingPacket)
    (h : parse_wantheartbeat inp = .ok rest pkt) : rest.length < inp.length := by
  obtain ⟨r1, u, ht, h2⟩ := pbind_ok _ _ _ _ h
  obtain ⟨r2, k, hu, h3⟩ := pbind_ok _ _ _ _ h2
  cases h3
  exact lt_trans (beU32_lt r1 rest k hu) (tagByte_lt 64 inp r1 u ht)

lemma parse_iamcamera_lt (inp rest : List Nat) (pkt : IncomingPacket)
    (h : parse_iamcamera inp = .ok rest pkt) : rest.length < inp.length := by
  obtain ⟨r1, u, ht, h2⟩ := pbind_ok _ _ _ _ h
  obtain ⟨r2, road, h16a, h3⟩ := pbind_ok _ _ _ _ h2
  obtain ⟨r3, mile, h16b, h4⟩ := pbind_ok _ _ _ _ h3
  obtain ⟨r4, lim, h16c, h5⟩ := pbind_ok _ _ _ _ h4
  cases h5
  exact lt_trans (lt_trans (lt_trans (beU16_lt r3 rest lim h16c)
    (beU16_lt r2 r3 mile h16b)) (beU16_lt r1 r2 road h16a)) (tagByte_lt 128 inp r1 u ht)

lemma parse_iamdispatcher_lt (inp rest : List Nat) (pkt : IncomingPacket)
    (h : parse_iamdispatcher inp = .ok rest pkt) : rest.length < inp.length := by
  obtain ⟨r1, u, ht, h2⟩ := pbind_ok _ _ _ _ h
  obtain ⟨r2, n, hn, h3⟩ := pbind_ok _ _ _ _ h2
  obtain ⟨r3, roads, hc, h4⟩ := pbind_ok _ _ _ _ h3
  cases h4
  exact lt_of_le_of_lt
    (le_trans (countP_le beU16 (fun i r v hx => le_of_lt (beU16_lt i r v hx)) n r2 rest roads hc)
      (le_of_lt (beU8_lt r1 r2 n hn)))
    (tagByte_lt 129 inp r1 u ht)

lemma parse_incoming_lt (inp rest : List Nat) (pkt : IncomingPacket)
    (h : parse_incoming inp = .ok rest pkt) : rest.length < inp.length := by
  rw [parse_incoming] at h
  cases h1 : parse_plate inp with
  | ok r v =>
    rw [h1] at h
    cases h
    exact parse_plate_lt inp rest pkt h1
  | incomplete => rw [h1] at h; cases h
  | err =>
    rw [h1] at h
    cases h2 : parse_wantheartbeat inp with
    | ok r v =>
      rw [h2] at h
      cases h
      exact parse_wantheartbeat_lt inp rest pkt h2
    | incomplete => rw [h2] at h; cases h
    | err =>
      rw [h2] at h
      cases h3 : parse_iamcamera inp with
      | ok r v =>
        rw [h3] at h
        cases h
        exact parse_iamcamera_lt inp rest pkt h3
      | incomplete => rw [h3] at h; cases h
      | err =>
        rw [h3] at h
        exact parse_iamdispatcher_lt inp rest pkt h

/-- How the inner decode loop of `handle` ends on a finite buffer. -/
inductive DecodeEnd where
  | needMore (leftover : List Nat)
  | parseError
deriving DecidableEq, Repr

/-- The inner `loop` of `handle` over a buffer: parse packets until
Incomplete (keep the leftover bytes) or a hard error (connection closes).
Totality is certified by `parse_incoming_lt`. -/
def decodeLoop (buf : List Nat) : List IncomingPacket × DecodeEnd :=
  match hp : parse_incoming buf with
  | .ok rest pkt =>
    let r := decodeLoop rest
    (pkt :: r.1, r.2)
  | .incomplete => ([], .needMore buf)
  | .err => ([], .parseError)
termination_by buf.length
decreasing_by exact parse_incoming_lt buf rest pkt hp

/-- C10: a successful `parse_incoming` strictly consumes input, and hence
the decode loop over any finite buffer terminates, ending either in
need-more-bytes (with the unconsumed leftover) or a hard parse error. -/
theorem c10_decode_progress (input rest : List Nat) (pkt : IncomingPacket)
    (h : parse_incoming input = .ok rest pkt) :
    rest.length < input.length ∧
    (∀ buf : List Nat,
      (∃ l, (decodeLoop buf).2 = .needMore l) ∨ (decodeLoop buf).2 = .parseError) := by
  refine ⟨parse_incoming_lt input rest pkt h, ?_⟩
  intro buf
  cases h2 : (decodeLoop buf).2 with
  | needMore l => exact Or.inl ⟨l, rfl⟩
  | parseError => exact Or.inr rfl

/-- Witness for C10 on a concrete WantHeartbeat message. -/
theorem c10_decode_progress_witness :
    ([] : List Nat).length < ([64, 0, 0, 0, 5] : List Nat).length ∧
    (∀ buf : List Nat,
      (∃ l, (decodeLoop buf).2 = .needMore l) ∨ (decodeLoop buf).2 = .parseError) :=
  c10_decode_progress [64, 0, 0, 0, 5] [] (.wantHeartbeat 5) (by decide)

end SpeedD

namespace Mob

/-- The restriction of the regex crate's Unicode-aware `\w` to the ASCII
plane: on bytes < 0x80 the Unicode word class coincides exactly with
`[0-9A-Za-z_]`.  The code's `regex::bytes` pattern runs in its default
Unicode mode, so on bytes ≥ 0x80 it would decode UTF-8 sequences and
consult the Unicode word-character tables; that part is NOT modelled here.
Consequently every theorem about the rewrite is stated under an explicit
all-bytes-ASCII hypothesis, within which this class is exact. -/
def isWordByte (b : Nat) : Bool :=
  decide ((48 ≤ b ∧ b ≤ 57) ∨ (65 ≤ b ∧ b ≤ 90) ∨ b = 95 ∨ (97 ≤ b ∧ b ≤ 122))

/-- The fixed tote address `7YWHMfk9JZe0LM0g1ZauHuiSxhI` as bytes. -/
def tote : List Nat :=
  [55, 89, 87, 72, 77, 102, 107, 57, 74, 90, 101, 48, 76, 77, 48, 103,
   49, 90, 97, 117, 72, 117, 105, 83, 120, 104, 73]

/-- The `\b` word-boundary check at a match start: the preceding byte (if
any) must not be a word byte (the match itself starts with the word byte
`7`). -/
def boundaryOk : Option Nat → Bool
  | none => true
  | some p => ! isWordByte p

/-- The extra space/edge test of `transform_line`:
`m.start() == 0 || line[m.start()-1] == b' '` and symmetrically at the
end. -/
def spaceOk : Option Nat → Bool
  | none => true
  | some b => b == 32

/-- The scan underlying `transform_line`, fused with the compiled meaning
of the regex `\b7\w{25,34}\b` on ASCII input: there a match of the pattern
is exactly a maximal word-byte run that starts with `7` at a word boundary
and has total length 26..35 (for any other run length no quantifier choice
places the trailing `\b` on a word/non-word boundary).  `prev` is the byte
preceding the current position.  At a match, the tote address or the
original bytes are appended according to the space/edge test, exactly as
the `captures_iter` loop with `last_match` does; all other bytes are copied
verbatim.  This models the Rust `transform_line` faithfully for lines of
ASCII bytes only (see `isWordByte`); the theorems below are scoped
accordingly. -/
def transformGo : Option Nat → List Nat → List Nat
  | _, [] => []
  | prev, b :: rest =>
    if b = 55 ∧ boundaryOk prev then
      if 25 ≤ (rest.takeWhile isWordByte).length ∧ (rest.takeWhile isWordByte).length ≤ 34 then
        (if spaceOk prev ∧ spaceOk (rest.dropWhile isWordByte).head? then tote
         else b :: rest.takeWhile isWordByte) ++
          transformGo (some ((rest.takeWhile isWordByte).getLastD b))
            (rest.dropWhile isWordByte)
      else (b :: rest.takeWhile isWordByte) ++
        transformGo (some ((rest.takeWhile isWordByte).getLastD b))
          (rest.dropWhile isWordByte)
    else b :: transformGo (some b) rest
termination_by _ l => l.length
decreasing_by
  · exact Nat.lt_succ_of_le ((List.dropWhile_sublist isWordByte).length_le)
  · exact Nat.lt_succ_of_le ((List.dropWhile_sublist isWordByte).length_le)
  · exact Nat.lt_succ_of_le (le_refl _)

/-- `transform_line`: rewrite one line and append exactly one LF. -/
def transform_line (l : List Nat) : List Nat := transformGo none l ++ [10]

/-- A space-free token is replaced iff it is `7` followed by 25..34 word
bytes (the whole token matching the regex). -/
def qualifies (t : List Nat) : Bool :=
  match t with
  | 55 :: w => w.all isWordByte && decide (25 ≤ w.length) && decide (w.length ≤ 34)
  | _ => false

lemma getLastD_cases (w : List Nat) (b : Nat) : w.getLastD b = b ∨ w.getLastD b ∈ w := by
  induction w generalizing b with
  | nil => exact Or.inl rfl
  | cons x t ih =>
    rw [List.getLastD_cons]
    rcases ih x with h | h
    · rw [h]
      exact Or.inr (List.mem_cons_self x t)
    · exact Or.inr (List.mem_cons_of_mem x h)

lemma takeWhile_all_of_all {l : List Nat} (h : ∀ x ∈ l, isWordByte x = true) :
    l.takeWhile isWordByte = l := by
  induction l with
  | nil => rfl
  | cons x t ih =>
    rw [List.takeWhile_cons, h x (List.mem_cons_self x t)]
    simp [ih (fun y hy => h y (List.mem_cons_of_mem x hy))]

lemma dropWhile_head_false :
    ∀ (l : List Nat) (c : Nat) (t2 : List Nat),
      l.dropWhile isWordByte = c :: t2 → isWordByte c = false := by
  intro l
  induction l with
  | nil => intro c t2 h; simp [List.dropWhile] at h
  | cons x xs ih =>
    intro c t2 h
    rw [List.dropWhile_cons] at h
    by_cases hx : isWordByte x = true
    · rw [if_pos hx] at h
      exact ih c t2 h
    · rw [if_neg hx] at h
      cases h
      exact Bool.eq_false_iff.mpr hx

lemma transformGo_cons32 (x : Option Nat) (b : List Nat) :
    transformGo x (32 :: b) = 32 :: transformGo (some 32) b := by
  rw [transformGo]
  rw [if_neg (fun hx => absurd hx.1 (by decide))]

lemma transformGo_no_space_aux :
    ∀ (n : Nat) (l : List Nat), l.length ≤ n → (∀ x ∈ l, x ≠ 32) →
      ∀ (p : Nat), p ≠ 32 → transformGo (some p) l = l := by
  intro n
  induction n with
  | zero =>
    intro l hl _ p _
    rw [List.eq_nil_of_length_eq_zero (Nat.le_zero.mp hl)]
    simp [transformGo]
  | succ m ih =>
    intro l hl hmem p hp
    cases l with
    | nil => simp [transformGo]
    | cons b rest =>
      have hrestlen : rest.length ≤ m := by
        simp only [List.length_cons] at hl
        omega
      have hrestmem : ∀ x ∈ rest, x ≠ 32 :=
        fun x hx => hmem x (List.mem_cons_of_mem b hx)
      have hb32 : b ≠ 32 := hmem b (List.mem_cons_self b rest)
      rw [transformGo]
      by_cases hc : b = 55 ∧ boundaryOk (some p) = true
      · rw [if_pos hc]
        have hr2len : (rest.dropWhile isWordByte).length ≤ m :=
          le_trans (List.dropWhile_sublist isWordByte).length_le hrestlen
        have hr2mem : ∀ x ∈ rest.dropWhile isWordByte, x ≠ 32 :=
          fun x hx => hrestmem x ((List.dropWhile_sublist isWordByte).subset hx)
        have hwlast : (rest.takeWhile isWordByte).getLastD b ≠ 32 := by
          rcases getLastD_cases (rest.takeWhile isWordByte) b with h | h
          · rw [h]; exact hb32
          · exact hrestmem _ ((List.takeWhile_sublist isWordByte).subset h)
        have hrec := ih (rest.dropWhile isWordByte) hr2len hr2mem _ hwlast
        have hsp : ¬ (spaceOk (some p) = true ∧
            spaceOk (rest.dropWhile isWordByte).head? = true) := by
          rintro ⟨hx, -⟩
          exact hp (by simpa [spaceOk] using hx)
        by_cases hlen : 25 ≤ (rest.takeWhile isWordByte).length ∧
            (rest.takeWhile isWordByte).length ≤ 34
        · rw [if_pos hlen, if_neg hsp, hrec, List.cons_append,
            List.takeWhile_append_dropWhile]
        · rw [if_neg hlen, hrec, List.cons_append, List.takeWhile_append_dropWhile]
      · rw [if_neg hc, ih rest hrestlen hrestmem b hb32]

lemma transformGo_no_space (l : List Nat) (hmem : ∀ x ∈ l, x ≠ 32)
    (p : Nat) (hp : p ≠ 32) : transformGo (some p) l = l :=
  transformGo_no_space_aux l.length l (le_refl _) hmem p hp

lemma transformGo_some32 (l : List Nat) :
    transformGo (some 32) l = transformGo none l := by
  cases l with
  | nil => simp [transformGo]
  | cons b rest => simp [transformGo, boundaryOk, spaceOk, isWordByte]

lemma transformGo_append_space_aux :
    ∀ (n : Nat) (a : List Nat), a.length ≤ n → ∀ (prev : Option Nat) (b : List Nat),
      transformGo prev (a ++ 32 :: b) =
        transformGo prev a ++ 32 :: transformGo (some 32) b := by
  intro n
  induction n with
  | zero =>
    intro a ha prev b
    rw [List.eq_nil_of_length_eq_zero (Nat.le_zero.mp ha), List.nil_append,
      transformGo_cons32]
    simp [transformGo]
  | succ m ih =>
    intro a ha prev b
    cases a with
    | nil =>
      rw [List.nil_append, transformGo_cons32]
      simp [transformGo]
    | cons c a2 =>
      have ha2 : a2.length ≤ m := by
        simp only [List.length_cons] at ha
        omega
      rw [List.cons_append, transformGo, transformGo]
      by_cases hc : c = 55 ∧ boundaryOk prev = true
      · rw [if_pos hc, if_pos hc]
        by_cases hall : (a2.takeWhile isWordByte).length = a2.length
        · have htw : a2.takeWhile isWordByte = a2 :=
            (List.takeWhile_sublist isWordByte).eq_of_length hall
          have hdw : a2.dropWhile isWordByte = [] := by
            have hsum := List.takeWhile_append_dropWhile (p := isWordByte) (l := a2)
            rw [htw] at hsum
            have hlen := congrArg List.length hsum
            rw [List.length_append] at hlen
            exact List.eq_nil_of_length_eq_zero (by omega)
          have htw32 : (32 :: b).takeWhile isWordByte = [] := by
            simp [List.takeWhile_cons, isWordByte]
          have hdw32 : (32 :: b).dropWhile isWordByte = 32 :: b := by
            simp [List.dropWhile_cons, isWordByte]
          have hTW : (a2 ++ 32 :: b).takeWhile isWordByte = a2 := by
            rw [List.takeWhile_append, if_pos hall, htw32, List.append_nil]
          have hDW : (a2 ++ 32 :: b).dropWhile isWordByte = 32 :: b := by
            rw [List.dropWhile_append, hdw, hdw32]
            simp
          rw [hTW, hDW, htw, hdw]
          simp only [transformGo_cons32, List.head?_cons, List.head?_nil]
          have hemp : ∀ x : Option Nat, transformGo x ([] : List Nat) = [] := by
            intro x
            simp [transformGo]
          by_cases hlen : 25 ≤ a2.length ∧ a2.length ≤ 34 <;>
            by_cases hsp : spaceOk prev = true <;>
              simp [hlen, hsp, hemp, spaceOk]
        · have hne : a2.dropWhile isWordByte ≠ [] := by
            intro hnil
            apply hall
            have hsum := List.takeWhile_append_dropWhile (p := isWordByte) (l := a2)
            rw [hnil, List.append_nil] at hsum
            rw [hsum]
          obtain ⟨d, dt, hD⟩ : ∃ d dt, a2.dropWhile isWordByte = d :: dt := by
            cases hDD : a2.dropWhile isWordByte with
            | nil => exact absurd hDD hne
            | cons d dt => exact ⟨d, dt, rfl⟩
          have hDlen : (d :: dt).length ≤ m :=
            hD ▸ le_trans (List.dropWhile_sublist isWordByte).length_le ha2
          have hTW : (a2 ++ 32 :: b).takeWhile isWordByte = a2.takeWhile isWordByte := by
            rw [List.takeWhile_append, if_neg hall]
          have hDW : (a2 ++ 32 :: b).dropWhile isWordByte = d :: (dt ++ 32 :: b) := by
            rw [List.dropWhile_append, hD]
            simp
          rw [hTW, hDW, hD]
          have hrec := fun (x : Nat) => ih (d :: dt) hDlen (some x) b
          simp only [List.cons_append] at hrec
          simp only [hrec, List.head?_cons]
          by_cases hlen : 25 ≤ (a2.takeWhile isWordByte).length ∧
              (a2.takeWhile isWordByte).length ≤ 34 <;>
            by_cases hsp : spaceOk prev = true ∧ spaceOk (some d) = true <;>
              simp [hlen, hsp, List.append_assoc]
      · rw [if_neg hc, if_neg hc]
        simp only [List.cons_append]
        rw [ih a2 ha2 (some c) b]

lemma transformGo_append_space (a : List Nat) (prev : Option Nat) (b : List Nat) :
    transformGo prev (a ++ 32 :: b) =
      transformGo prev a ++ 32 :: transformGo none b := by
  rw [transformGo_append_space_aux a.length a (le_refl _) prev b, transformGo_some32]

lemma transformGo_qualifies (t : List Nat) (hq : qualifies t = true) :
    transformGo none t = tote := by
  match t, hq with
  | 55 :: w, hq =>
    rw [qualifies] at hq
    rw [Bool.and_eq_true, Bool.and_eq_true] at hq
    obtain ⟨⟨hall, hlen1⟩, hlen2⟩ := hq
    have hwall : ∀ x ∈ w, isWordByte x = true := List.all_eq_true.mp hall
    have htw : w.takeWhile isWordByte = w := takeWhile_all_of_all hwall
    have hdw : w.dropWhile isWordByte = [] := by
      have hsum := List.takeWhile_append_dropWhile (p := isWordByte) (l := w)
      rw [htw] at hsum
      have hlen := congrArg List.length hsum
      rw [List.length_append] at hlen
      exact List.eq_nil_of_length_eq_zero (by omega)
    rw [transformGo, if_pos ⟨rfl, rfl⟩, htw, hdw]
    rw [if_pos ⟨of_decide_eq_true hlen1, of_decide_eq_true hlen2⟩]
    rw [if_pos ⟨rfl, rfl⟩]
    simp [transformGo]

lemma transformGo_not_qualifies (t : List Nat) (hns : ∀ x ∈ t, x ≠ 32)
    (hq : qualifies t = false) : transformGo none t = t := by
  cases t with
  | nil => simp [transformGo]
  | cons c rest =>
    have hrestns : ∀ x ∈ rest, x ≠ 32 := fun x hx => hns x (List.mem_cons_of_mem c hx)
    by_cases hc : c = 55
    · subst hc
      rw [transformGo, if_pos ⟨rfl, rfl⟩]
      have hlast : (rest.takeWhile isWordByte).getLastD 55 ≠ 32 := by
        rcases getLastD_cases (rest.takeWhile isWordByte) 55 with h | h
        · rw [h]; decide
        · exact hrestns _ ((List.takeWhile_sublist isWordByte).subset h)
      have hr2ns : ∀ x ∈ rest.dropWhile isWordByte, x ≠ 32 :=
        fun x hx => hrestns x ((List.dropWhile_sublist isWordByte).subset hx)
      by_cases hlen : 25 ≤ (rest.takeWhile isWordByte).length ∧
          (rest.takeWhile isWordByte).length ≤ 34
      · rw [if_pos hlen]
        cases hD : rest.dropWhile isWordByte with
        | nil =>
          exfalso
          have htw : rest.takeWhile isWordByte = rest := by
            have hsum := List.takeWhile_append_dropWhile (p := isWordByte) (l := rest)
            rw [hD, List.append_nil] at hsum
            exact hsum
          have hall : rest.all isWordByte = true :=
            List.all_eq_true.mpr (fun x hx =>
              List.mem_takeWhile_imp (l := rest) (by rw [htw]; exact hx))
          rw [htw] at hlen
          rw [qualifies, hall] at hq
          simp [hlen.1, hlen.2] at hq
        | cons d dt =>
          have hd32 : d ≠ 32 := hr2ns d (by rw [hD]; exact List.mem_cons_self d dt)
          have hsp : ¬ (spaceOk none = true ∧ spaceOk (d :: dt).head? = true) := by
            rintro ⟨-, hx⟩
            rw [List.head?_cons] at hx
            exact hd32 (by simpa [spaceOk] using hx)
          rw [if_neg hsp]
          rw [transformGo_no_space (d :: dt) (by rw [← hD]; exact hr2ns) _ hlast]
          rw [List.cons_append, ← hD, List.takeWhile_append_dropWhile]
      · rw [if_neg hlen]
        rw [transformGo_no_space (rest.dropWhile isWordByte) hr2ns _ hlast]
        rw [List.cons_append, List.takeWhile_append_dropWhile]
    · rw [transformGo, if_neg (fun hx => hc hx.1)]
      rw [transformGo_no_space rest hrestns c (hns c (List.mem_cons_self c rest))]

lemma transformGo_subset_aux :
    ∀ (n : Nat) (l : List Nat), l.length ≤ n → ∀ (prev : Option Nat) (x : Nat),
      x ∈ transformGo prev l → x ∈ l ∨ x ∈ tote := by
  intro n
  induction n with
  | zero =>
    intro l hl prev x hx
    rw [List.eq_nil_of_length_eq_zero (Nat.le_zero.mp hl)] at hx
    simp [transformGo] at hx
  | succ m ih =>
    intro l hl prev x hx
    cases l with
    | nil => simp [transformGo] at hx
    | cons b rest =>
      have hrestlen : rest.length ≤ m := by
        simp only [List.length_cons] at hl
        omega
      have hr2len : (rest.dropWhile isWordByte).length ≤ m :=
        le_trans (List.dropWhile_sublist isWordByte).length_le hrestlen
      rw [transformGo] at hx
      by_cases hc : b = 55 ∧ boundaryOk prev = true
      · rw [if_pos hc] at hx
        have hmemw : ∀ y, y ∈ b :: rest.takeWhile isWordByte → y ∈ b :: rest := by
          intro y hy
          rcases List.mem_cons.mp hy with rfl | hy
          · exact List.mem_cons_self y rest
          · exact List.mem_cons_of_mem b ((List.takeWhile_sublist isWordByte).subset hy)
        have hrec : x ∈ transformGo (some ((rest.takeWhile isWordByte).getLastD b))
            (rest.dropWhile isWordByte) → x ∈ b :: rest ∨ x ∈ tote := by
          intro hy
          rcases ih _ hr2len _ x hy with hz | hz
          · exact Or.inl (List.mem_cons_of_mem b
              ((List.dropWhile_sublist isWordByte).subset hz))
          · exact Or.inr hz
        by_cases hlen : 25 ≤ (rest.takeWhile isWordByte).length ∧
            (rest.takeWhile isWordByte).length ≤ 34
        · rw [if_pos hlen] at hx
          rcases List.mem_append.mp hx with hx | hx
          · by_cases hsp : spaceOk prev = true ∧
                spaceOk (rest.dropWhile isWordByte).head? = true
            · rw [if_pos hsp] at hx
              exact Or.inr hx
            · rw [if_neg hsp] at hx
              exact Or.inl (hmemw x hx)
          · exact hrec hx
        · rw [if_neg hlen] at hx
          rcases List.mem_append.mp hx with hx | hx
          · exact Or.inl (hmemw x hx)
          · exact hrec hx
      · rw [if_neg hc] at hx
        rcases List.mem_cons.mp hx with rfl | hx
        · exact Or.inl (List.mem_cons_self x rest)
        · rcases ih rest hrestlen (some b) x hx with hz | hz
          · exact Or.inl (List.mem_cons_of_mem b hz)
          · exact Or.inr hz

lemma transform_line_one_lf (l : List Nat) (h10 : 10 ∉ l) :
    (transform_line l).count 10 = 1 := by
  rw [transform_line, List.count_append]
  have hbody : (transformGo none l).count 10 = 0 := by
    rw [List.count_eq_zero]
    intro hmem
    rcases transformGo_subset_aux l.length l (le_refl _) none 10 hmem with h | h
    · exact h10 h
    · revert h
      decide
  rw [hbody]
  rfl

/-- C8 (amended, scoped to ASCII lines): for every forwarded line of ASCII
bytes, the Boguscoin rewrite replaces exactly the substrings matching the
code's regex `\b7\w{25,34}\b` (on ASCII, `\w` is `[0-9A-Za-z_]`, so
underscores count) that are additionally bounded by start/end of line or an
ASCII space; everything else is copied verbatim and exactly one trailing LF
is appended.  Formally: the rewrite distributes over spaces; a space-free
token is replaced by the tote address exactly when it is `7` followed by
25..34 word bytes; and one LF is appended.  Lines containing bytes ≥ 0x80
engage the regex's Unicode word classes and are outside this scope. -/
theorem c8_boguscoin_rewrite :
    (∀ (a : List Nat) (prev : Option Nat) (b : List Nat),
      (∀ x ∈ a, x < 128) → (∀ x ∈ b, x < 128) →
      transformGo prev (a ++ 32 :: b) =
        transformGo prev a ++ 32 :: transformGo none b) ∧
    (∀ t : List Nat, (∀ x ∈ t, x < 128) → qualifies t = true →
      transformGo none t = tote) ∧
    (∀ t : List Nat, (∀ x ∈ t, x < 128) → (∀ x ∈ t, x ≠ 32) →
      qualifies t = false → transformGo none t = t) ∧
    (∀ t : List Nat, qualifies t = true ↔
      ∃ w, t = 55 :: w ∧ (∀ x ∈ w, isWordByte x = true) ∧
        25 ≤ w.length ∧ w.length ≤ 34) ∧
    (∀ l : List Nat, (∀ x ∈ l, x < 128) →
      transform_line l = transformGo none l ++ [10]) ∧
    (∀ l : List Nat, (∀ x ∈ l, x < 128) → 10 ∉ l →
      (transform_line l).count 10 = 1) := by
  refine ⟨fun a prev b _ _ => transformGo_append_space a prev b,
    fun t _ hq => transformGo_qualifies t hq,
    fun t _ hns hq => transformGo_not_qualifies t hns hq,
    ?_, fun l _ => rfl, fun l _ h10 => transform_line_one_lf l h10⟩
  intro t
  constructor
  · intro hq
    match t, hq with
    | 55 :: w, hq =>
      rw [qualifies, Bool.and_eq_true, Bool.and_eq_true] at hq
      exact ⟨w, rfl, List.all_eq_true.mp hq.1.1,
        of_decide_eq_true hq.1.2, of_decide_eq_true hq.2⟩
  · rintro ⟨w, rfl, hall, h1, h2⟩
    rw [qualifies, Bool.and_eq_true, Bool.and_eq_true]
    exact ⟨⟨List.all_eq_true.mpr hall, decide_eq_true h1⟩, decide_eq_true h2⟩

/-- Counterexample to C8 as stated: a token of `7` followed by 25
underscores matches the code's `\b7\w{25,34}\b` and is replaced by the tote
address, although it contains no substring matching the claimed
`\b7[A-Za-z0-9]{25,34}\b` and so ought to be forwarded verbatim.  The
input is pure ASCII, where the model is exact. -/
theorem c8_counterexample :
    transform_line (55 :: List.replicate 25 95) = tote ++ [10] ∧
    (55 :: List.replicate 25 95) ≠ tote ∧
    (∀ x ∈ List.replicate 25 95,
      ¬ ((48 ≤ x ∧ x ≤ 57) ∨ (65 ≤ x ∧ x ≤ 90) ∨ (97 ≤ x ∧ x ≤ 122))) := by
  refine ⟨?_, by decide, by decide⟩
  rw [transform_line, transformGo_qualifies _ (by decide)]

/-- Witness for C8 (amended) on a concrete ASCII qualifying token. -/
theorem c8_boguscoin_rewrite_witness :
    transformGo none (55 :: List.replicate 30 97) = tote :=
  c8_boguscoin_rewrite.2.1 (55 :: List.replicate 30 97) (by decide) (by decide)

end Mob

namespace BudgetChat

/-- `char::is_ascii_alphanumeric`: `0-9`, `A-Z`, `a-z`. -/
def isAsciiAlphanumeric (c : Char) : Bool :=
  decide ((48 ≤ c.toNat ∧ c.toNat ≤ 57) ∨ (65 ≤ c.toNat ∧ c.toNat ≤ 90) ∨
    (97 ≤ c.toNat ∧ c.toNat ≤ 122))

/-- The acceptance test of `Client::set_nick`:
`nick.chars().all(|c| c.is_ascii_alphanumeric())`.  There is no minimum
length check, so the empty string passes. -/
def nickAccepted (nick : String) : Bool := nick.data.all isAsciiAlphanumeric

/-- What `Client::run` does with the first received line: on `set_nick`
success it registers the client and broadcasts Joined; on failure it writes
a rejection and disconnects without registering. -/
inductive FirstLineOutcome where
  | registered (nick : String)
  | disconnected
deriving DecidableEq, Repr

/-- The first-line branch of `Client::run`. -/
def firstLine (l : String) : FirstLineOutcome :=
  if nickAccepted l then .registered l else .disconnected

/-- C9 (amended): the first line is the nickname and it is accepted iff it
consists entirely of ASCII alphanumeric characters (the empty nickname is
accepted: the code has no minimum-length check); an accepted nickname
registers the client, a rejected one disconnects without registering. -/
theorem c9_nickname_validation :
    (∀ l : String, nickAccepted l = true ↔
      ∀ c ∈ l.data, isAsciiAlphanumeric c = true) ∧
    (∀ l : String, nickAccepted l = true → firstLine l = .registered l) ∧
    (∀ l : String, nickAccepted l = false → firstLine l = .disconnected) ∧
    nickAccepted "" = true := by
  refine ⟨fun l => List.all_eq_true, ?_, ?_, rfl⟩
  · intro l h
    rw [firstLine, if_pos h]
  · intro l h
    rw [firstLine, if_neg (by simp [h])]

/-- Counterexample to C9 as stated: the empty first line is accepted and
registers an empty nickname, although the claim requires non-emptiness and
an immediate disconnect. -/
theorem c9_counterexample :
    nickAccepted "" = true ∧ firstLine "" = .registered "" ∧
    ("" : String).length = 0 :=
  ⟨rfl, rfl, rfl⟩

/-- Witness for C9 (amended) on a concrete valid nickname. -/
theorem c9_nickname_validation_witness :
    firstLine "bob7" = .registered "bob7" :=
  c9_nickname_validation.2.1 "bob7" (by decide)

end BudgetChat
